import Mathlib

/-!
Shallow embedding of the per-frame wheel-orientation core of
`src/src/app/components/CarViewer.tsx` (the `animate` callback, the key
handlers and the GLTF-load wheel collection), together with proofs of the
specification's claims about it.

Numbers: JavaScript floating-point arithmetic is idealised as exact real
arithmetic (`ℝ`); the constant `Math.PI` is modelled by `Real.pi`.
Key sets: the JS `Set<string>` `keysPressed` is modelled by `Finset String`.
Orientations: three.js quaternions are modelled by a four-component
structure over `ℝ` with the Hamilton product exactly as in
`Quaternion.multiplyQuaternions`, and `Quaternion.setFromAxisAngle` is
translated literally (half-angle sine/cosine).
-/

namespace CarViewer

/-- The debug-panel axis choice, `'x' | 'y' | 'z'` in the source
(`steeringAxis` / `rotationAxis` state, CarViewer.tsx lines 19-20). -/
inductive Axis
  | x
  | y
  | z
deriving DecidableEq, Repr

/-- A three.js `Vector3` restricted to what the animation loop builds. -/
structure Vec3 where
  x : ℝ
  y : ℝ
  z : ℝ

/-- The axis-selector vector built in the animation loop
(CarViewer.tsx lines 260-264 and 272-276):
`new THREE.Vector3(axis === 'x' ? 1 : 0, axis === 'y' ? 1 : 0, axis === 'z' ? 1 : 0)`. -/
def axisVec (a : Axis) : Vec3 :=
  ⟨if a = Axis.x then 1 else 0, if a = Axis.y then 1 else 0, if a = Axis.z then 1 else 0⟩

/-- A three.js quaternion: components `_w`, `_x`, `_y`, `_z` over idealised reals. -/
structure Quat where
  w : ℝ
  x : ℝ
  y : ℝ
  z : ℝ

/-- Hamilton product, translated from three.js `Quaternion.multiplyQuaternions`
(`a.multiply(b)` sets `a` to `a * b`). -/
def Quat.mul (a b : Quat) : Quat :=
  ⟨a.w * b.w - a.x * b.x - a.y * b.y - a.z * b.z,
   a.x * b.w + a.w * b.x + a.y * b.z - a.z * b.y,
   a.y * b.w + a.w * b.y + a.z * b.x - a.x * b.z,
   a.z * b.w + a.w * b.z + a.x * b.y - a.y * b.x⟩

/-- The identity quaternion, `new THREE.Quaternion()`. -/
def Quat.one : Quat := ⟨1, 0, 0, 0⟩

/-- three.js `Quaternion.setFromAxisAngle(axis, angle)`:
`s = sin(angle/2)`, components `(cos(angle/2), axis.x*s, axis.y*s, axis.z*s)`. -/
noncomputable def setFromAxisAngle (axis : Vec3) (angle : ℝ) : Quat :=
  let s := Real.sin (angle / 2)
  ⟨Real.cos (angle / 2), axis.x * s, axis.y * s, axis.z * s⟩

/-- `const maxSteeringAngle = Math.PI / 4` (CarViewer.tsx line 219). -/
noncomputable def maxSteeringAngle : ℝ := Real.pi / 4

/-- `const steeringSpeed = 0.05` (CarViewer.tsx line 220). -/
def steeringSpeed : ℝ := 0.05

/-- The per-frame steering-angle update (CarViewer.tsx lines 222-233):
arrow-left/'a' steers up with clamping at `maxSteeringAngle`, otherwise
arrow-right/'d' steers down with clamping at `-maxSteeringAngle`, otherwise
the angle decays by `0.9` while `|angle| > 0.01` and is set to `0` below. -/
noncomputable def updateSteering (keys : Finset String) (angle : ℝ) : ℝ :=
  if "ArrowLeft" ∈ keys ∨ "a" ∈ keys then
    min (angle + steeringSpeed) maxSteeringAngle
  else if "ArrowRight" ∈ keys ∨ "d" ∈ keys then
    max (angle - steeringSpeed) (-maxSteeringAngle)
  else if |angle| > 0.01 then
    angle * 0.9
  else
    0

/-- `wheelRotationRef.current += manualRotationSpeed` (CarViewer.tsx line 236). -/
def updateRoll (roll speed : ℝ) : ℝ := roll + speed

/-- The debug slider bounds for `manualRotationSpeed`
(CarViewer.tsx lines 448-449: `min="0" max="0.2"`). -/
def rollSpeedMin : ℝ := 0

/-- Upper slider bound for `manualRotationSpeed` (CarViewer.tsx line 449). -/
def rollSpeedMax : ℝ := 0.2

/-- JavaScript `String.prototype.toLowerCase()`, modelled character-wise
(ASCII lowering suffices for the key names involved here). -/
def jsToLower (s : String) : String := ⟨s.data.map Char.toLower⟩

/-- `handleKeyDown` (CarViewer.tsx lines 301-306): lower-cases `e.key` and
adds it to the pressed set when it is one of the four recognised keys. -/
def handleKeyDown (keys : Finset String) (ekey : String) : Finset String :=
  let key := jsToLower ekey
  if key = "arrowleft" ∨ key = "a" ∨ key = "arrowright" ∨ key = "d" then
    insert key keys
  else
    keys

/-- `handleKeyUp` (CarViewer.tsx lines 308-311): lower-cases `e.key` and
removes it from the pressed set. -/
def handleKeyUp (keys : Finset String) (ekey : String) : Finset String :=
  keys.erase (jsToLower ekey)

/-- `wheel.name === 'wheel_front_left' || wheel.name === 'wheel_front_right'`
(CarViewer.tsx line 241). -/
def isFrontWheel (name : String) : Bool :=
  name = "wheel_front_left" || name = "wheel_front_right"

/-- `wheel.name === 'wheel_front_right' || wheel.name === 'wheel_rear_right'`
(CarViewer.tsx line 242). -/
def isRightWheel (name : String) : Bool :=
  name = "wheel_front_right" || name = "wheel_rear_right"

/-- The wheel-collection test in the GLTF load callback
(CarViewer.tsx line 149): `child.name.startsWith('wheel_')`, modelled as a
prefix check on the character sequence. -/
def isWheelNode (name : String) : Bool :=
  "wheel_".data.isPrefixOf name.data

/-- The steering angle actually applied to a front wheel
(CarViewer.tsx lines 250-255): `steeringAngleRef.current + manualSteeringAngle`,
negated when the wheel is a right wheel. -/
def finalSteeringAngle (name : String) (steeringAngle manualSteeringAngle : ℝ) : ℝ :=
  let f := steeringAngle + manualSteeringAngle
  if isRightWheel name then -f else f

/-- The orientation of a wheel before the rolling rotation is applied
(CarViewer.tsx lines 244-268): the rest orientation, composed with the
steering rotation for front wheels only. -/
noncomputable def preRollQuat (steeringAxis : Axis) (steeringAngle manualSteeringAngle : ℝ)
    (name : String) (rest : Quat) : Quat :=
  if isFrontWheel name then
    rest.mul (setFromAxisAngle (axisVec steeringAxis) (finalSteeringAngle name steeringAngle manualSteeringAngle))
  else
    rest

/-- The full per-wheel orientation computation of one `animate` frame
(CarViewer.tsx lines 244-282): start from the rest orientation
(`q.setFromEuler(initialRotation)`), multiply by the steering rotation for
front wheels (mirrored for the right wheel), then multiply by the rolling
rotation of the shared accumulated angle about the configured roll axis. -/
noncomputable def computeWheel (steeringAxis rotationAxis : Axis)
    (steeringAngle manualSteeringAngle rollAngle : ℝ)
    (name : String) (rest : Quat) : Quat :=
  let q := rest
  let q :=
    if isFrontWheel name then
      let f := steeringAngle + manualSteeringAngle
      let f := if isRightWheel name then -f else f
      q.mul (setFromAxisAngle (axisVec steeringAxis) f)
    else q
  q.mul (setFromAxisAngle (axisVec rotationAxis) rollAngle)

/-- A scene node as the animation loop sees it: its name, its current
orientation (`wheel.quaternion`) and its captured rest orientation
(`wheel.userData.initialRotation`, held here as the quaternion
`setFromEuler` produces from it). -/
structure SceneNode where
  name : String
  quaternion : Quat
  rest : Quat

/-- The effect of one `animate` frame on one scene node: nodes collected as
wheels (name starting `wheel_`, CarViewer.tsx line 149) get their orientation
fully replaced by `computeWheel` (line 282 `wheel.quaternion.copy(q)`);
every other node is untouched by the loop. -/
noncomputable def animateNode (steeringAxis rotationAxis : Axis)
    (steeringAngle manualSteeringAngle rollAngle : ℝ) (n : SceneNode) : SceneNode :=
  if isWheelNode n.name then
    { n with quaternion :=
        computeWheel steeringAxis rotationAxis steeringAngle manualSteeringAngle rollAngle n.name n.rest }
  else
    n

/-- Steering angle after a sequence of frames with the given held-key sets,
starting from the initial `steeringAngleRef` value `0` (CarViewer.tsx line 14). -/
noncomputable def steerAfter (frames : List (Finset String)) : ℝ :=
  frames.foldl (fun a ks => updateSteering ks a) 0

/-! ### Helper lemmas on the steering update -/

/-- When no recognised steering key is in the set, the update takes the
decay/snap branch. -/
theorem updateSteering_noMatch (keys : Finset String) (a : ℝ)
    (hL : ¬("ArrowLeft" ∈ keys ∨ "a" ∈ keys))
    (hR : ¬("ArrowRight" ∈ keys ∨ "d" ∈ keys)) :
    updateSteering keys a = if |a| > 0.01 then a * 0.9 else 0 := by
  simp [updateSteering, hL, hR]

/-- When a "steer left" key is matched, the update takes the clamped
increase branch, whatever else is held. -/
theorem updateSteering_leftMatch (keys : Finset String) (a : ℝ)
    (hL : "ArrowLeft" ∈ keys ∨ "a" ∈ keys) :
    updateSteering keys a = min (a + steeringSpeed) maxSteeringAngle := by
  simp [updateSteering, hL]

/-- One steering update preserves the clamp `|angle| ≤ π/4`. -/
theorem abs_updateSteering_le (keys : Finset String) (a : ℝ)
    (h : |a| ≤ maxSteeringAngle) : |updateSteering keys a| ≤ maxSteeringAngle := by
  have hM : (0 : ℝ) ≤ maxSteeringAngle := by
    have := Real.pi_pos
    unfold maxSteeringAngle
    linarith
  obtain ⟨h1, h2⟩ := abs_le.mp h
  unfold updateSteering
  split
  · rw [abs_le]
    constructor
    · apply le_min
      · have : (0 : ℝ) ≤ steeringSpeed := by norm_num [steeringSpeed]
        linarith
      · linarith
    · exact min_le_right _ _
  · split
    · rw [abs_le]
      constructor
      · exact le_max_right _ _
      · apply max_le
        · have : (0 : ℝ) ≤ steeringSpeed := by norm_num [steeringSpeed]
          linarith
        · linarith
    · split
      · rw [abs_mul]
        have h9 : |(0.9 : ℝ)| = 0.9 := by norm_num
        rw [h9]
        nlinarith [abs_nonneg a]
      · simpa using hM

/-- The clamp invariant propagates through any list of frames. -/
theorem abs_foldl_updateSteering_le (frames : List (Finset String)) (a : ℝ)
    (h : |a| ≤ maxSteeringAngle) :
    |frames.foldl (fun b ks => updateSteering ks b) a| ≤ maxSteeringAngle := by
  induction frames generalizing a with
  | nil => simpa using h
  | cons ks rest ih =>
    simpa using ih (updateSteering ks a) (abs_updateSteering_le ks a h)

/-- Under no matched key, iterating the update shrinks the angle
geometrically: `|angle| ≤ 0.9 ^ n * |a|` after `n` frames. -/
theorem abs_iterate_updateSteering_le (keys : Finset String)
    (hL : ¬("ArrowLeft" ∈ keys ∨ "a" ∈ keys))
    (hR : ¬("ArrowRight" ∈ keys ∨ "d" ∈ keys)) (a : ℝ) :
    ∀ n : ℕ, |(updateSteering keys)^[n] a| ≤ 0.9 ^ n * |a| := by
  intro n
  induction n with
  | zero => simp
  | succ n ih =>
    rw [Function.iterate_succ_apply']
    rw [updateSteering_noMatch keys _ hL hR]
    split
    · rw [abs_mul]
      have h9 : |(0.9 : ℝ)| = 0.9 := by norm_num
      rw [h9, pow_succ]
      nlinarith [abs_nonneg ((updateSteering keys)^[n] a)]
    · have : (0 : ℝ) ≤ 0.9 ^ (n + 1) * |a| := by positivity
      simpa using this

/-- Once the angle is at or below the snap threshold, the next
no-input frame makes it exactly `0`. -/
theorem updateSteering_snap (keys : Finset String) (a : ℝ)
    (hL : ¬("ArrowLeft" ∈ keys ∨ "a" ∈ keys))
    (hR : ¬("ArrowRight" ∈ keys ∨ "d" ∈ keys))
    (h : |a| ≤ 0.01) : updateSteering keys a = 0 := by
  rw [updateSteering_noMatch keys a hL hR]
  have : ¬(|a| > 0.01) := not_lt.mpr h
  simp [this]

/-- With no steering key matched, there is a frame count after which the
angle is exactly `0` forever. -/
theorem iterate_updateSteering_eventually_zero (keys : Finset String)
    (hL : ¬("ArrowLeft" ∈ keys ∨ "a" ∈ keys))
    (hR : ¬("ArrowRight" ∈ keys ∨ "d" ∈ keys)) (a : ℝ) :
    ∃ N : ℕ, ∀ n : ℕ, N ≤ n → (updateSteering keys)^[n] a = 0 := by
  have hε : (0 : ℝ) < 0.01 / (|a| + 1) := by positivity
  obtain ⟨N, hN⟩ := exists_pow_lt_of_lt_one hε (by norm_num : (0.9 : ℝ) < 1)
  have hsmall : |(updateSteering keys)^[N] a| ≤ 0.01 := by
    have h1 := abs_iterate_updateSteering_le keys hL hR a N
    have h2 : (0.9 : ℝ) ^ N * |a| ≤ 0.9 ^ N * (|a| + 1) := by
      have : (0 : ℝ) ≤ 0.9 ^ N := by positivity
      nlinarith
    have h3 : (0.9 : ℝ) ^ N * (|a| + 1) < 0.01 / (|a| + 1) * (|a| + 1) := by
      have : (0 : ℝ) < |a| + 1 := by positivity
      exact mul_lt_mul_of_pos_right hN this
    have h4 : (0.01 : ℝ) / (|a| + 1) * (|a| + 1) = 0.01 := by
      field_simp
    linarith
  have hzero : (updateSteering keys)^[N + 1] a = 0 := by
    rw [Function.iterate_succ_apply']
    exact updateSteering_snap keys _ hL hR hsmall
  have hfix : updateSteering keys 0 = 0 :=
    updateSteering_snap keys 0 hL hR (by norm_num)
  refine ⟨N + 1, fun n hn => ?_⟩
  obtain ⟨m, rfl⟩ := Nat.exists_eq_add_of_le hn
  rw [Nat.add_comm, Function.iterate_add_apply, hzero, Function.iterate_fixed hfix]

/-- The identity quaternion is a left unit for the Hamilton product. -/
theorem Quat.one_mul_eq (q : Quat) : Quat.one.mul q = q := by
  cases q
  simp only [Quat.mul, Quat.one, Quat.mk.injEq]
  refine ⟨by ring, by ring, by ring, by ring⟩

/-- The wheel computation factors as the pre-roll orientation times the
shared roll rotation. -/
theorem computeWheel_eq_preRoll_mul (sa ra : Axis) (s m roll : ℝ)
    (name : String) (rest : Quat) :
    computeWheel sa ra s m roll name rest =
      (preRollQuat sa s m name rest).mul (setFromAxisAngle (axisVec ra) roll) := by
  cases hf : isFrontWheel name <;>
    simp [computeWheel, preRollQuat, finalSteeringAngle, hf]

/-! ### Claim theorems -/

/-- C1: on every frame, a wheel node's output orientation is recomputed from
scratch as restOrientation ∘ steerRotation ∘ rollRotation for front wheels and
restOrientation ∘ rollRotation for rear wheels, and this result fully replaces
the previous orientation: the output does not depend on the node's previous
quaternion. -/
theorem wheel_orientation_recomputed_each_frame (sa ra : Axis) (s m roll : ℝ)
    (n : SceneNode) (h : isWheelNode n.name = true) :
    (animateNode sa ra s m roll n).quaternion =
      (if isFrontWheel n.name then
          n.rest.mul (setFromAxisAngle (axisVec sa) (finalSteeringAngle n.name s m))
        else n.rest).mul (setFromAxisAngle (axisVec ra) roll) ∧
    ∀ q : Quat,
      (animateNode sa ra s m roll { n with quaternion := q }).quaternion =
        (animateNode sa ra s m roll n).quaternion := by
  constructor
  · rw [show (animateNode sa ra s m roll n).quaternion =
        computeWheel sa ra s m roll n.name n.rest by simp [animateNode, h]]
    rw [computeWheel_eq_preRoll_mul]
    cases hf : isFrontWheel n.name <;> simp [preRollQuat, hf]
  · intro q
    simp [animateNode, h]

/-- C1 witness: concrete rear wheel node, the previous quaternion is ignored. -/
theorem wheel_orientation_recomputed_each_frame_witness :
    (animateNode Axis.y Axis.x 0 0 0 ⟨"wheel_rear_left", ⟨0, 0, 0, 0⟩, Quat.one⟩).quaternion =
      (if isFrontWheel "wheel_rear_left" then
          Quat.one.mul (setFromAxisAngle (axisVec Axis.y) (finalSteeringAngle "wheel_rear_left" 0 0))
        else Quat.one).mul (setFromAxisAngle (axisVec Axis.x) 0) :=
  (wheel_orientation_recomputed_each_frame Axis.y Axis.x 0 0 0
    ⟨"wheel_rear_left", ⟨0, 0, 0, 0⟩, Quat.one⟩ (by decide)).1

/-- C2: for every sequence of held-key states, starting from the initial
steering angle 0, the steering angle satisfies `|angle| ≤ π/4` after every
frame update. -/
theorem steering_angle_clamped (frames : List (Finset String)) :
    |steerAfter frames| ≤ Real.pi / 4 := by
  have h0 : |(0 : ℝ)| ≤ maxSteeringAngle := by
    have := Real.pi_pos
    rw [abs_zero]
    unfold maxSteeringAngle
    linarith
  have h := abs_foldl_updateSteering_le frames 0 h0
  simpa [steerAfter, maxSteeringAngle] using h

/-- C5: a rear wheel's computed orientation is independent of the steering
angle and the manual steering offset. -/
theorem rear_wheel_ignores_steering (sa ra : Axis) (s₁ m₁ s₂ m₂ roll : ℝ)
    (name : String) (rest : Quat)
    (h : name = "wheel_rear_left" ∨ name = "wheel_rear_right") :
    computeWheel sa ra s₁ m₁ roll name rest =
      computeWheel sa ra s₂ m₂ roll name rest := by
  have hf : isFrontWheel name = false := by
    rcases h with rfl | rfl <;> rfl
  simp [computeWheel, hf]

/-- C5 witness: concrete rear wheel, orientations agree across two different
steering angles and offsets. -/
theorem rear_wheel_ignores_steering_witness :
    computeWheel Axis.y Axis.x 1 0 0 "wheel_rear_left" Quat.one =
      computeWheel Axis.y Axis.x 2 5 0 "wheel_rear_left" Quat.one :=
  rear_wheel_ignores_steering Axis.y Axis.x 1 0 2 5 0 "wheel_rear_left" Quat.one
    (Or.inl rfl)

/-- C10: the rolling rotation applied to every wheel on a frame is the same
rotation of the shared accumulated angle about the configured roll axis (never
negated for right-side wheels); in particular two rear wheels with the same
rest orientation get identical orientations. -/
theorem roll_rotation_shared_by_all_wheels (sa ra : Axis) (s m roll : ℝ)
    (rest : Quat) :
    (∀ name : String, computeWheel sa ra s m roll name rest =
        (preRollQuat sa s m name rest).mul (setFromAxisAngle (axisVec ra) roll)) ∧
    computeWheel sa ra s m roll "wheel_rear_right" rest =
      computeWheel sa ra s m roll "wheel_rear_left" rest := by
  constructor
  · intro name
    exact computeWheel_eq_preRoll_mul sa ra s m roll name rest
  · have h1 : isFrontWheel "wheel_rear_right" = false := rfl
    have h2 : isFrontWheel "wheel_rear_left" = false := rfl
    simp [computeWheel, h1, h2]

/-- C3 counterexample: holding both directions at once (keys `a` and `d`)
from angle 0 does not take the decay branch (which would give exactly 0):
the `if`/`else if` chain takes the steer-left branch and returns 0.05. -/
theorem steering_both_held_takes_left_branch :
    updateSteering {"a", "d"} 0 = 0.05 ∧ (0.05 : ℝ) ≠ 0 := by
  constructor
  · rw [updateSteering_leftMatch {"a", "d"} 0 (Or.inr (by decide))]
    have hle : (0 : ℝ) + steeringSpeed ≤ maxSteeringAngle := by
      have := Real.pi_gt_three
      unfold steeringSpeed maxSteeringAngle
      linarith
    rw [min_eq_left hle]
    norm_num [steeringSpeed]
  · norm_num

/-- C3 (amended): the decay/snap branch (`previousAngle * 0.9` when
`|previousAngle| > 0.01`, exactly 0 otherwise) is taken exactly when no
recognised steering key is matched; holding both directions instead takes the
steer-left branch. -/
theorem steering_decay_when_no_key_matched (keys : Finset String) (a : ℝ)
    (hL : ¬("ArrowLeft" ∈ keys ∨ "a" ∈ keys))
    (hR : ¬("ArrowRight" ∈ keys ∨ "d" ∈ keys)) :
    updateSteering keys a = if |a| > 0.01 then a * 0.9 else 0 :=
  updateSteering_noMatch keys a hL hR

/-- C3 witness: with no keys held, angle 1 decays to 0.9. -/
theorem steering_decay_when_no_key_matched_witness :
    updateSteering ∅ 1 = 0.9 := by
  have h := steering_decay_when_no_key_matched ∅ 1 (by simp) (by simp)
  rw [h, if_pos (by norm_num)]
  norm_num

/-- C4: the effective steering input of the FrontRight wheel is the exact
negation of the FrontLeft wheel's, for every steering angle and manual offset;
concretely, with rest orientation the identity, steeringAngle 0.3, manual
offset 0 and steering axis Y, the FrontRight wheel's pre-roll rotation is the
rotation of −0.3 rad about Y. -/
theorem front_right_steering_mirrors_front_left :
    (∀ s m : ℝ, finalSteeringAngle "wheel_front_right" s m =
        -(finalSteeringAngle "wheel_front_left" s m)) ∧
    preRollQuat Axis.y 0.3 0 "wheel_front_right" Quat.one =
      setFromAxisAngle (axisVec Axis.y) (-0.3) := by
  constructor
  · intro s m
    have hR : isRightWheel "wheel_front_right" = true := rfl
    have hL : isRightWheel "wheel_front_left" = false := rfl
    simp [finalSteeringAngle, hR, hL]
  · have hF : isFrontWheel "wheel_front_right" = true := rfl
    have hR : isRightWheel "wheel_front_right" = true := rfl
    simp [preRollQuat, hF, Quat.one_mul_eq, finalSteeringAngle, hR]

/-- C6: from every starting angle, if no steering key is matched for enough
consecutive frames, the angle becomes exactly 0 (and stays 0): the decay
eventually brings it to at most 0.01, after which the update snaps it to 0. -/
theorem steering_converges_to_exact_zero (keys : Finset String) (a : ℝ)
    (hL : ¬("ArrowLeft" ∈ keys ∨ "a" ∈ keys))
    (hR : ¬("ArrowRight" ∈ keys ∨ "d" ∈ keys)) :
    ∃ N : ℕ, ∀ n : ℕ, N ≤ n → (updateSteering keys)^[n] a = 0 :=
  iterate_updateSteering_eventually_zero keys hL hR a

/-- C6 witness: from angle 1 with no keys held, the angle is eventually
exactly 0. -/
theorem steering_converges_to_exact_zero_witness :
    ∃ N : ℕ, ∀ n : ℕ, N ≤ n → (updateSteering ∅)^[n] 1 = 0 :=
  steering_converges_to_exact_zero ∅ 1 (by simp) (by simp)

/-- C7 counterexample: with the configuration surface's minimum roll speed 0
(slider `min="0"`), the accumulator is unchanged — the update is not strictly
increasing for every admissible speed. -/
theorem roll_constant_at_zero_speed :
    updateRoll 0 rollSpeedMin = 0 ∧ ¬ (0 < updateRoll 0 rollSpeedMin) := by
  constructor <;> norm_num [updateRoll, rollSpeedMin]

/-- C7 (amended): every frame updates the roll accumulator by exactly
`rollAngle + rollSpeed`, never clamped, wrapped or reset; it is non-decreasing
for every admissible (non-negative) speed and strictly increasing exactly when
the speed is positive. -/
theorem roll_accumulates_exactly (roll speed : ℝ) :
    updateRoll roll speed = roll + speed ∧
    (0 ≤ speed → roll ≤ updateRoll roll speed) ∧
    (0 < speed → roll < updateRoll roll speed) := by
  refine ⟨rfl, fun h => ?_, fun h => ?_⟩ <;> simp [updateRoll] <;> linarith

/-- C7 witness: concrete speed 0.05 from angle 1. -/
theorem roll_accumulates_exactly_witness :
    updateRoll 1 0.05 = 1.05 ∧ (1 : ℝ) < updateRoll 1 0.05 := by
  have h := roll_accumulates_exactly 1 0.05
  refine ⟨by rw [h.1]; norm_num, h.2.2 (by norm_num)⟩

/-- C8: the key-down handler records the lower-cased key (`"arrowleft"`),
but the animation loop tests for `"ArrowLeft"`; holding only the ArrowLeft key
therefore leaves the angle at 0 while holding only `a` raises it to 0.05 —
the two bindings of the same logical action behave differently. -/
theorem arrow_key_binding_dead :
    handleKeyDown ∅ "ArrowLeft" = {"arrowleft"} ∧
    updateSteering (handleKeyDown ∅ "ArrowLeft") 0 = 0 ∧
    updateSteering (handleKeyDown ∅ "a") 0 = 0.05 := by
  have h1 : handleKeyDown ∅ "ArrowLeft" = {"arrowleft"} := by decide
  have h2 : handleKeyDown ∅ "a" = {"a"} := by decide
  refine ⟨h1, ?_, ?_⟩
  · rw [h1, updateSteering_noMatch _ _ (by decide) (by decide), if_neg (by norm_num)]
  · rw [h2, updateSteering_leftMatch _ _ (Or.inr (by decide))]
    have hle : (0 : ℝ) + steeringSpeed ≤ maxSteeringAngle := by
      have := Real.pi_gt_three
      unfold steeringSpeed maxSteeringAngle
      linarith
    rw [min_eq_left hle]
    norm_num [steeringSpeed]

/-- C9 counterexample: the node named `wheel_spare` does not match the
four-name convention, yet the load callback's prefix test selects it and the
animation loop replaces its orientation (here from the zero quaternion to a
rotation with scalar part 1). -/
theorem nonconventional_wheel_name_processed :
    isWheelNode "wheel_spare" = true ∧
    ("wheel_spare" ≠ "wheel_front_left" ∧ "wheel_spare" ≠ "wheel_front_right" ∧
      "wheel_spare" ≠ "wheel_rear_left" ∧ "wheel_spare" ≠ "wheel_rear_right") ∧
    (animateNode Axis.y Axis.x 0 0 0 ⟨"wheel_spare", ⟨0, 0, 0, 0⟩, Quat.one⟩).quaternion ≠
      (⟨0, 0, 0, 0⟩ : Quat) := by
  refine ⟨by decide, by decide, ?_⟩
  have hW : isWheelNode "wheel_spare" = true := by decide
  have hF : isFrontWheel "wheel_spare" = false := by decide
  simp [animateNode, hW, computeWheel, hF, Quat.one_mul_eq, setFromAxisAngle,
    Quat.one, Quat.mul, Quat.mk.injEq]

/-- C9 (amended): the animation loop processes exactly the nodes whose name
starts with `wheel_` — their orientation is replaced by the computed one, all
other nodes are untouched — and the four conventional wheel names all match
that prefix test. -/
theorem wheel_selection_by_name_start (sa ra : Axis) (s m roll : ℝ) (n : SceneNode) :
    (isWheelNode n.name = false → animateNode sa ra s m roll n = n) ∧
    (isWheelNode n.name = true →
      animateNode sa ra s m roll n =
        { n with quaternion := computeWheel sa ra s m roll n.name n.rest }) ∧
    isWheelNode "wheel_front_left" = true ∧
    isWheelNode "wheel_front_right" = true ∧
    isWheelNode "wheel_rear_left" = true ∧
    isWheelNode "wheel_rear_right" = true := by
  refine ⟨fun h => by simp [animateNode, h], fun h => by simp [animateNode, h],
    by decide, by decide, by decide, by decide⟩

/-- C9 witness: a node named `body` is left untouched by a frame. -/
theorem wheel_selection_by_name_start_witness :
    animateNode Axis.y Axis.x 0 0 0 ⟨"body", Quat.one, Quat.one⟩ =
      ⟨"body", Quat.one, Quat.one⟩ :=
  (wheel_selection_by_name_start Axis.y Axis.x 0 0 0 ⟨"body", Quat.one, Quat.one⟩).1
    (by decide)

end CarViewer
